import Mathlib

/-!
Verification of the I/O reactor in `src/http/net.rs` of RustLangES/node_actix.

The reactor bridges OS socket-readiness notifications and a cooperative
scheduler: per-socket `Source` records hold one waker slot and one readiness
latch per direction; `Reactor::poll_ready` implements the check/arm/re-check
handshake; the event loop (`Shared::poll`) latches readiness and collects
wakers under lock, invoking them only after all locks are released;
`TcpStream::poll_io` is the generic would-block retry primitive.

The embedding below is a direct functional translation of that code: wakers
are abstracted to identifiers with `will_wake` as equality, atomics become
plain fields mutated at the same program points, and the lock discipline is
made explicit either by restricting interleaving points (the event loop can
only run where `poll_ready` does not hold the slot lock) or by emitting an
explicit action trace (for the event loop's own critical sections).
-/

namespace NetR

/-- A task waker, abstracted to an identifier; `will_wake` compares them. -/
abbrev Waker := Nat

/-- `Waker::will_wake`: would these wakers wake the same task? -/
def will_wake (a b : Waker) : Bool := a == b

/-- `mod direction { READ = 0 }`, as an index into the 2-element arrays. -/
def READ : Fin 2 := 0

/-- `mod direction { WRITE = 1 }`. -/
def WRITE : Fin 2 := 1

/-- Error kinds of `std::io::Error` distinguished by the reactor code. -/
inductive ErrKind : Type
| wouldBlock
| interrupted
| other (code : Nat)
deriving DecidableEq, Repr

/-- `std::io::Result<A>`. -/
inductive IoRes (A : Type) : Type
| ok (a : A)
| err (e : ErrKind)
deriving DecidableEq, Repr

/-- `std::task::Poll<A>`. -/
inductive Poll (A : Type) : Type
| ready (a : A)
| pending
deriving DecidableEq, Repr

/-- `struct Source`: per-socket record with one waker slot (`interest`) and
one readiness latch (`triggered`) per direction, plus its table token. -/
structure Source : Type where
  interest : Fin 2 → Option Waker
  triggered : Fin 2 → Bool
  token : Nat
deriving DecidableEq

/-- The waker-slot update inside `poll_ready`'s critical section
(net.rs lines 44-49): if the existing waker for `d` would wake the same
task, leave the slot; otherwise store a clone of the current waker. -/
def armWaker (s : Source) (d : Fin 2) (w : Waker) : Source :=
  match s.interest d with
  | some existing =>
    if will_wake existing w then s
    else { s with interest := Function.update s.interest d (some w) }
  | none => { s with interest := Function.update s.interest d (some w) }

/-- `Reactor::poll_ready` with no concurrent event-loop activity: fast-path
latch load, waker-slot update under lock, re-check of the latch after the
lock is released (net.rs lines 31-59). Returns the result together with the
post-state. -/
def pollReadyPure (s : Source) (d : Fin 2) (w : Waker) :
    Poll (IoRes Unit) × Source :=
  if s.triggered d then (Poll.ready (IoRes.ok ()), s)
  else
    let s1 := armWaker s d w
    if s1.triggered d then (Poll.ready (IoRes.ok ()), s1)
    else (Poll.pending, s1)

/-- `Reactor::clear_trigger` (net.rs lines 61-63): store false into the
direction's latch. -/
def clearTrigger (s : Source) (d : Fin 2) : Source :=
  { s with triggered := Function.update s.triggered d false }

/-- The event loop's per-direction work (net.rs lines 105-111 / 113-119):
take the pending waker if present, pushing it onto the batch, and store
true into the direction's latch. -/
def fireDirection (s : Source) (ws : List Waker) (d : Fin 2) :
    Source × List Waker :=
  let ws1 := match s.interest d with
    | some w => ws ++ [w]
    | none => ws
  ({ s with
      interest := Function.update s.interest d none,
      triggered := Function.update s.triggered d true }, ws1)

/- ### Basic frame lemmas -/

theorem armWaker_triggered (s : Source) (d : Fin 2) (w : Waker) :
    (armWaker s d w).triggered = s.triggered := by
  unfold armWaker
  cases h : s.interest d with
  | some existing => by_cases hw : will_wake existing w <;> simp [hw]
  | none => simp

theorem armWaker_token (s : Source) (d : Fin 2) (w : Waker) :
    (armWaker s d w).token = s.token := by
  unfold armWaker
  cases h : s.interest d with
  | some existing => by_cases hw : will_wake existing w <;> simp [hw]
  | none => simp

theorem fireDirection_triggered_self (s : Source) (ws : List Waker)
    (d : Fin 2) : (fireDirection s ws d).1.triggered d = true := by
  simp [fireDirection]

theorem fireDirection_triggered_mono (s : Source) (ws : List Waker)
    (d d2 : Fin 2) (h : s.triggered d = true) :
    (fireDirection s ws d2).1.triggered d = true := by
  by_cases hd : d = d2
  · subst hd; simp [fireDirection]
  · simp [fireDirection, Function.update_noteq hd, h]

/- ### C8: waker slot no-op / replace discipline -/

/-- **C8.** The waker-slot update in `poll_ready` keeps at most one pending
waker per direction: when the slot for `d` already holds a waker that would
wake the same task, the whole source is left unchanged (no-op); otherwise
the new waker replaces the slot's previous content, and the other
direction's slot is untouched. -/
theorem C8_waker_slot_discipline (s : Source) (d : Fin 2) (w : Waker) :
    (∀ w0, s.interest d = some w0 → will_wake w0 w = true →
      armWaker s d w = s) ∧
    ((∀ w0, s.interest d = some w0 → will_wake w0 w = false) →
      (armWaker s d w).interest d = some w ∧
      ∀ d2, d2 ≠ d → (armWaker s d w).interest d2 = s.interest d2) := by
  constructor
  · intro w0 h0 hw
    unfold armWaker
    rw [h0]
    simp [hw]
  · intro hno
    unfold armWaker
    cases h : s.interest d with
    | some existing =>
      have := hno existing h
      simp only [this, if_neg]
      constructor
      · simp
      · intro d2 hd2; simp [Function.update_noteq hd2]
    | none =>
      constructor
      · simp
      · intro d2 hd2; simp [Function.update_noteq hd2]

/-- Witness for C8 at a concrete source: slot `READ` holds waker 3, which
would wake the same task as waker 3, so re-arming is a no-op. -/
theorem C8_waker_slot_discipline_witness :
    armWaker ⟨fun d => if d = READ then some 3 else none, fun _ => false, 0⟩
      READ 3 =
    ⟨fun d => if d = READ then some 3 else none, fun _ => false, 0⟩ :=
  (C8_waker_slot_discipline _ READ 3).1 3 (by simp [READ]) (by decide)

/- ### C9: clear_trigger frame property -/

/-- **C9.** `clear_trigger(source, direction)` stores false into that
direction's latch and changes nothing else: the other direction's latch,
both waker slots, and the token are all left unchanged. -/
theorem C9_clear_trigger_frame (s : Source) (d : Fin 2) :
    (clearTrigger s d).triggered d = false ∧
    (∀ d2, d2 ≠ d → (clearTrigger s d).triggered d2 = s.triggered d2) ∧
    (clearTrigger s d).interest = s.interest ∧
    (clearTrigger s d).token = s.token := by
  refine ⟨by simp [clearTrigger], ?_, rfl, rfl⟩
  intro d2 hd2
  simp [clearTrigger, Function.update_noteq hd2]

/-- Witness for C9: clearing the Read latch on a source whose Write latch is
set leaves the Write latch true. -/
theorem C9_clear_trigger_frame_witness :
    (clearTrigger ⟨fun _ => none, fun _ => true, 0⟩ READ).triggered WRITE
      = true :=
  (C9_clear_trigger_frame ⟨fun _ => none, fun _ => true, 0⟩ READ).2.1 WRITE
    (by decide) ▸ rfl

/- ### C10: poll_ready never returns an error -/

/-- **C10.** `poll_ready` only ever returns `Pending` or `Ready(Ok(()))`:
the error branch of its `Poll<io::Result<()>>` type is unreachable. -/
theorem C10_poll_ready_no_error (s : Source) (d : Fin 2) (w : Waker) :
    (pollReadyPure s d w).1 = Poll.pending ∨
    (pollReadyPure s d w).1 = Poll.ready (IoRes.ok ()) := by
  unfold pollReadyPure
  by_cases h : s.triggered d
  · simp [h]
  · simp only [h, if_false]
    by_cases h1 : (armWaker s d w).triggered d <;> simp [h1]

/- ### C1: poll_ready under event-loop interleaving -/

/-- The event loop's effect on a source for one direction, ignoring the
waker batch (used to model an interleaved latch-set during `poll_ready`). -/
def eventFire (s : Source) (d : Fin 2) : Source := (fireDirection s [] d).1

/-- Run the event loop's direction handler at an interleaving point iff
`b` is true. -/
def maybeFire (b : Bool) (s : Source) (d : Fin 2) : Source :=
  if b then eventFire s d else s

/-- One `poll_ready` call with its two latch loads recorded. -/
structure PollReadyRun : Type where
  result : Poll (IoRes Unit)
  state : Source
  obsFast : Bool
  obsRecheck : Option Bool
deriving DecidableEq

/-- `Reactor::poll_ready` interleaved with the event loop. The event loop
may fire the direction's handler before the fast-path load (`f1`), between
the fast-path load and the acquisition of the waker-slot lock (`f2`), or
between the lock release and the re-check load (`f3`). It cannot run inside
the critical section, because its own handler takes the same slot lock.
`obsFast` and `obsRecheck` record the two latch loads (`obsRecheck = none`
when the fast path returned before the re-check). -/
def pollReadyInter (s : Source) (d : Fin 2) (w : Waker)
    (f1 f2 f3 : Bool) : PollReadyRun :=
  let s0 := maybeFire f1 s d
  if s0.triggered d then
    { result := Poll.ready (IoRes.ok ()), state := s0,
      obsFast := true, obsRecheck := none }
  else
    let s1 := maybeFire f2 s0 d
    let s2 := armWaker s1 d w
    let s3 := maybeFire f3 s2 d
    if s3.triggered d then
      { result := Poll.ready (IoRes.ok ()), state := s3,
        obsFast := false, obsRecheck := some true }
    else
      { result := Poll.pending, state := s3,
        obsFast := false, obsRecheck := some false }

theorem maybeFire_triggered_mono (b : Bool) (s : Source) (d : Fin 2)
    (h : s.triggered d = true) : (maybeFire b s d).triggered d = true := by
  cases b with
  | false => simpa [maybeFire] using h
  | true => simpa [maybeFire] using fireDirection_triggered_mono s [] d d h

/-- **C1.** No missed wakeup in `poll_ready`: if the event loop sets the
direction's latch at any point between the initial fast-path load and the
release of the waker-slot lock (interleaving point `f2`), that same
`poll_ready` call returns Ready; and `poll_ready` returns Pending only if
the latch was observed false at both the fast-path load and the re-check
performed after storing the waker. -/
theorem C1_poll_ready_no_missed_wakeup (s : Source) (d : Fin 2) (w : Waker)
    (f1 f2 f3 : Bool) :
    (f2 = true →
      (pollReadyInter s d w f1 f2 f3).result = Poll.ready (IoRes.ok ())) ∧
    ((pollReadyInter s d w f1 f2 f3).result = Poll.pending →
      (pollReadyInter s d w f1 f2 f3).obsFast = false ∧
      (pollReadyInter s d w f1 f2 f3).obsRecheck = some false) := by
  constructor
  · intro hf2
    subst hf2
    unfold pollReadyInter
    by_cases h0 : (maybeFire f1 s d).triggered d
    · simp [h0]
    · have h1 : (maybeFire true (maybeFire f1 s d) d).triggered d = true := by
        simpa [maybeFire, eventFire] using
          fireDirection_triggered_self (maybeFire f1 s d) [] d
      have h2 : (armWaker (maybeFire true (maybeFire f1 s d) d) d w).triggered
          d = true := by
        rw [armWaker_triggered]; exact h1
      have h3 := maybeFire_triggered_mono f3 _ d h2
      simp [h0, h3]
  · intro hpend
    unfold pollReadyInter at hpend ⊢
    by_cases h0 : (maybeFire f1 s d).triggered d
    · simp [h0] at hpend
    · by_cases h1 : (maybeFire f3
          (armWaker (maybeFire f2 (maybeFire f1 s d) d) d w) d).triggered d
      · simp [h0, h1] at hpend
      · simp [h0, h1]

/-- Witness for C1 at a concrete idle source (both slots empty, both
latches false): with the event loop firing between the fast-path check and
the lock (`f2 = true`), `poll_ready` returns Ready. -/
theorem C1_poll_ready_no_missed_wakeup_witness :
    (pollReadyInter ⟨fun _ => none, fun _ => false, 0⟩ READ 7
      false true false).result = Poll.ready (IoRes.ok ()) :=
  (C1_poll_ready_no_missed_wakeup ⟨fun _ => none, fun _ => false, 0⟩ READ 7
    false true false).1 rfl

/- ### C4: the poll_io retry primitive -/

/-- `TcpStream::poll_io` (net.rs lines 148-170), fuel-indexed. Each
iteration: `poll_ready` (its error branch propagated by `?`, its Pending
returned as Pending), then the raw operation `ops i`; a would-block error
clears the direction's trigger and retries from the readiness check with
the next raw result; anything else is returned as Ready. Returns `none`
when the fuel runs out, otherwise the result, the final source state, and
the index of the last raw-operation attempt. -/
def poll_io_model {T : Type} : Nat → Source → Fin 2 → Waker →
    (Nat → IoRes T) → Nat → Option (Poll (IoRes T) × Source × Nat)
| 0, _, _, _, _, _ => none
| fuel + 1, s, d, w, ops, i =>
  match pollReadyPure s d w with
  | (Poll.pending, s1) => some (Poll.pending, s1, i)
  | (Poll.ready (IoRes.err e), s1) => some (Poll.ready (IoRes.err e), s1, i)
  | (Poll.ready (IoRes.ok _), s1) =>
    match ops i with
    | IoRes.err e =>
      if e = ErrKind.wouldBlock then
        poll_io_model fuel (clearTrigger s1 d) d w ops (i + 1)
      else some (Poll.ready (IoRes.err e), s1, i)
    | IoRes.ok v => some (Poll.ready (IoRes.ok v), s1, i)

theorem pollReadyPure_no_err (s : Source) (d : Fin 2) (w : Waker) (e : ErrKind) :
    (pollReadyPure s d w).1 ≠ Poll.ready (IoRes.err e) := by
  unfold pollReadyPure
  by_cases h : s.triggered d
  · simp [h]
  · simp only [h, if_false]
    by_cases h1 : (armWaker s d w).triggered d <;> simp [h1]

/-- **C4.** `poll_io` behaviour: a Pending readiness check yields Pending; a
would-block raw error triggers `clear_trigger` and a retry from the
readiness check (so would-block is never returned to the caller); any other
raw error is returned verbatim as the Ready failure; a raw success is
returned as Ready. -/
theorem C4_poll_io_retry {T : Type} (fuel : Nat) (s : Source) (d : Fin 2)
    (w : Waker) (ops : Nat → IoRes T) (i : Nat) :
    ((pollReadyPure s d w).1 = Poll.pending →
      poll_io_model (fuel + 1) s d w ops i =
        some (Poll.pending, (pollReadyPure s d w).2, i)) ∧
    (∀ r s2 j, poll_io_model fuel s d w ops i =
        some (Poll.ready r, s2, j) → r ≠ IoRes.err ErrKind.wouldBlock) ∧
    ((pollReadyPure s d w).1 = Poll.ready (IoRes.ok ()) →
      ops i = IoRes.err ErrKind.wouldBlock →
      poll_io_model (fuel + 1) s d w ops i =
        poll_io_model fuel (clearTrigger (pollReadyPure s d w).2 d) d w ops
          (i + 1)) ∧
    (∀ e, (pollReadyPure s d w).1 = Poll.ready (IoRes.ok ()) →
      ops i = IoRes.err e → e ≠ ErrKind.wouldBlock →
      poll_io_model (fuel + 1) s d w ops i =
        some (Poll.ready (IoRes.err e), (pollReadyPure s d w).2, i)) ∧
    (∀ v, (pollReadyPure s d w).1 = Poll.ready (IoRes.ok ()) →
      ops i = IoRes.ok v →
      poll_io_model (fuel + 1) s d w ops i =
        some (Poll.ready (IoRes.ok v), (pollReadyPure s d w).2, i)) := by
  refine ⟨?_, ?_, ?_, ?_, ?_⟩
  · intro hp
    rcases hq : pollReadyPure s d w with ⟨pr, s1⟩
    rw [hq] at hp
    simp only at hp
    subst hp
    simp [poll_io_model, hq]
  · induction fuel generalizing s i with
    | zero => intro r s2 j h; simp [poll_io_model] at h
    | succ n ih =>
      intro r s2 j h
      rcases hq : pollReadyPure s d w with ⟨pr, s1⟩
      simp only [poll_io_model, hq] at h
      match pr with
      | Poll.pending => simp at h
      | Poll.ready (IoRes.err e) =>
        exact absurd (by rw [hq]) (pollReadyPure_no_err s d w e)
      | Poll.ready (IoRes.ok u) =>
        cases hops : ops i with
        | err e =>
          by_cases he : e = ErrKind.wouldBlock
          · subst he
            have h2 : poll_io_model n (clearTrigger s1 d) d w ops (i + 1) =
                some (Poll.ready r, s2, j) := by
              simpa [hops] using h
            exact ih (clearTrigger s1 d) (i + 1) r s2 j h2
          · intro hcontra
            rw [hcontra] at h
            simp [hops, he] at h
        | ok v =>
          intro hcontra
          rw [hcontra] at h
          simp [hops] at h
  · intro hready hops
    rcases hq : pollReadyPure s d w with ⟨pr, s1⟩
    rw [hq] at hready
    simp only at hready
    subst hready
    simp [poll_io_model, hq, hops]
  · intro e hready hops hne
    rcases hq : pollReadyPure s d w with ⟨pr, s1⟩
    rw [hq] at hready
    simp only at hready
    subst hready
    simp [poll_io_model, hq, hops, hne]
  · intro v hready hops
    rcases hq : pollReadyPure s d w with ⟨pr, s1⟩
    rw [hq] at hready
    simp only at hready
    subst hready
    simp [poll_io_model, hq, hops]

/-- Witness for C4 on a concrete latched source: the readiness check is
Ready and the raw operation succeeds with 5, so `poll_io` returns
`Ready(Ok(5))`. -/
theorem C4_poll_io_retry_witness :
    poll_io_model 1 ⟨fun _ => none, fun _ => true, 0⟩ READ 7
      (fun _ => IoRes.ok 5) 0 =
      some (Poll.ready (IoRes.ok 5),
        (pollReadyPure ⟨fun _ => none, fun _ => true, 0⟩ READ 7).2, 0) :=
  (C4_poll_io_retry 0 ⟨fun _ => none, fun _ => true, 0⟩ READ 7
    (fun _ => IoRes.ok 5) 0).2.2.2.2 5 rfl rfl

/- ### Event loop: source table, events, action traces -/

/-- The source table `Shared.sources`: token → shared Source, guarded by one
lock. -/
abbrev Table := List (Nat × Source)

/-- `sources.get(&token)` on the association-list model of the map. -/
def lookupSource : Table → Nat → Option Source
| [], _ => none
| (t, s) :: rest, tok =>
  if t = tok then some s else lookupSource rest tok

/-- Writing back the mutated source under its token (the Rust code mutates
the shared `Arc<Source>` in place; the functional model replaces the table
entry). -/
def updateSource : Table → Nat → Source → Table
| [], _, _ => []
| (t, s) :: rest, tok, s2 =>
  if t = tok then (t, s2) :: rest else (t, s) :: updateSource rest tok s2

/-- One readiness event delivered by the OS poller. -/
structure Event : Type where
  token : Nat
  readable : Bool
  writable : Bool
deriving DecidableEq, Repr

/-- Does the event report direction `d` ready? -/
def reportsReady (ev : Event) (d : Fin 2) : Bool :=
  if d = READ then ev.readable else ev.writable

/-- Observable actions of the event loop, used to state the lock/wake
ordering discipline of `Shared::poll`. -/
inductive Act : Type
| lockTable
| unlockTable
| lockSlots (t : Nat)
| unlockSlots (t : Nat)
| takeWaker (t : Nat) (d : Fin 2)
| setLatch (t : Nat) (d : Fin 2)
| wakeTask (w : Waker)
deriving DecidableEq, Repr

/-- `fireDirection` together with the actions it performs. -/
def fireDirT (t : Nat) (s : Source) (ws : List Waker) (d : Fin 2) :
    Source × List Waker × List Act :=
  let r := fireDirection s ws d
  let tr := match s.interest d with
    | some _ => [Act.takeWaker t d, Act.setLatch t d]
    | none => [Act.setLatch t d]
  (r.1, r.2, tr)

/-- One iteration of the event loop body for a single event
(net.rs lines 94-120): look the source up under the table lock (a miss is
skipped), then under the source's slot lock take wakers and set latches for
each direction the event reports ready. -/
def handleEventT (tbl : Table) (ws : List Waker) (ev : Event) :
    Table × List Waker × List Act :=
  match lookupSource tbl ev.token with
  | none => (tbl, ws, [Act.lockTable, Act.unlockTable])
  | some s =>
    let r1 := if ev.readable then fireDirT ev.token s ws READ
      else (s, ws, [])
    let r2 := if ev.writable then fireDirT ev.token r1.1 r1.2.1 WRITE
      else (r1.1, r1.2.1, [])
    (updateSource tbl ev.token r2.1, r2.2.1,
      [Act.lockTable, Act.unlockTable, Act.lockSlots ev.token] ++
        r1.2.2 ++ r2.2.2 ++ [Act.unlockSlots ev.token])

/-- The event-processing loop of `Shared::poll`, accumulating the waker
batch. -/
def processEvents : Table → List Waker → List Event →
    Table × List Waker × List Act
| tbl, ws, [] => (tbl, ws, [])
| tbl, ws, ev :: rest =>
  let r1 := handleEventT tbl ws ev
  let r2 := processEvents r1.1 r1.2.1 rest
  (r2.1, r2.2.1, r1.2.2 ++ r2.2.2)

/-- The full action trace of one `Shared::poll` event batch: process every
event, then (net.rs lines 122-124) wake every collected waker. -/
def pollTrace (tbl : Table) (events : List Event) : List Act :=
  (processEvents tbl [] events).2.2 ++
    (processEvents tbl [] events).2.1.map Act.wakeTask

/- ### Lemmas about fireDirection and the table -/

theorem fireDirection_interest_self (s : Source) (ws : List Waker)
    (d : Fin 2) : (fireDirection s ws d).1.interest d = none := by
  simp [fireDirection]

theorem fireDirection_interest_other (s : Source) (ws : List Waker)
    (d d2 : Fin 2) (h : d2 ≠ d) :
    (fireDirection s ws d).1.interest d2 = s.interest d2 := by
  simp [fireDirection, Function.update_noteq h]

theorem fireDirection_mem (s : Source) (ws : List Waker) (d : Fin 2)
    (w : Waker) (h : w ∈ ws) : w ∈ (fireDirection s ws d).2 := by
  unfold fireDirection
  cases hs : s.interest d <;> simp [h]

theorem fireDirection_mem_self (s : Source) (ws : List Waker) (d : Fin 2)
    (w : Waker) (h : s.interest d = some w) :
    w ∈ (fireDirection s ws d).2 := by
  unfold fireDirection
  simp [h]

theorem lookup_updateSource_self (tbl : Table) (tok : Nat) (s s2 : Source)
    (h : lookupSource tbl tok = some s) :
    lookupSource (updateSource tbl tok s2) tok = some s2 := by
  induction tbl with
  | nil => simp [lookupSource] at h
  | cons p rest ih =>
    obtain ⟨t, s0⟩ := p
    by_cases ht : t = tok
    · simp [lookupSource, updateSource, ht]
    · simp only [lookupSource, updateSource, ht, if_false, if_neg ht] at h ⊢
      exact ih h

/- ### C5: event handling takes the waker and sets the latch -/

/-- **C5.** For every event whose source is found in the table and every
direction the event reports ready: the pending waker for that direction, if
present, is removed from its slot and collected into the batch, and the
direction's latch is set true regardless of whether a waker was present. -/
theorem C5_event_fires_direction (tbl : Table) (ws : List Waker) (ev : Event)
    (s : Source) (d : Fin 2)
    (hfind : lookupSource tbl ev.token = some s)
    (hready : reportsReady ev d = true) :
    ∃ s2, lookupSource (handleEventT tbl ws ev).1 ev.token = some s2 ∧
      s2.triggered d = true ∧ s2.interest d = none ∧
      (∀ w, s.interest d = some w → w ∈ (handleEventT tbl ws ev).2.1) := by
  unfold handleEventT
  rw [hfind]
  fin_cases d
  · -- d = READ
    have hr : ev.readable = true := by simpa [reportsReady, READ] using hready
    simp only [hr, if_true]
    by_cases hw : ev.writable
    · refine ⟨_, lookup_updateSource_self tbl ev.token s _ hfind, ?_, ?_, ?_⟩
      · simpa [hw, fireDirT] using
          fireDirection_triggered_mono _ _ READ WRITE
            (fireDirection_triggered_self s ws READ)
      · simpa [hw, fireDirT] using
          (fireDirection_interest_other _ _ WRITE READ (by decide)).trans
            (fireDirection_interest_self s ws READ)
      · intro w hwk
        simpa [hw, fireDirT] using
          fireDirection_mem _ _ WRITE w (fireDirection_mem_self s ws READ w hwk)
    · refine ⟨_, lookup_updateSource_self tbl ev.token s _ hfind, ?_, ?_, ?_⟩
      · simpa [hw, fireDirT] using fireDirection_triggered_self s ws READ
      · simpa [hw, fireDirT] using fireDirection_interest_self s ws READ
      · intro w hwk
        simpa [hw, fireDirT] using fireDirection_mem_self s ws READ w hwk
  · -- d = WRITE
    have hwr : ev.writable = true := by
      simpa [reportsReady, READ, WRITE] using hready
    simp only [hwr, if_true]
    by_cases hr : ev.readable
    · refine ⟨_, lookup_updateSource_self tbl ev.token s _ hfind, ?_, ?_, ?_⟩
      · simpa [hr, fireDirT] using
          fireDirection_triggered_self (fireDirection s ws READ).1 _ WRITE
      · simpa [hr, fireDirT] using
          fireDirection_interest_self (fireDirection s ws READ).1 _ WRITE
      · intro w hwk
        have h1 : (fireDirection s ws READ).1.interest WRITE = some w := by
          rw [fireDirection_interest_other s ws READ WRITE (by decide)]
          exact hwk
        simpa [hr, fireDirT] using
          fireDirection_mem_self (fireDirection s ws READ).1 _ WRITE w h1
    · refine ⟨_, lookup_updateSource_self tbl ev.token s _ hfind, ?_, ?_, ?_⟩
      · simpa [hr, fireDirT] using fireDirection_triggered_self s ws WRITE
      · simpa [hr, fireDirT] using fireDirection_interest_self s ws WRITE
      · intro w hwk
        simpa [hr, fireDirT] using fireDirection_mem_self s ws WRITE w hwk

/-- Witness for C5: a readable event for token 0, whose source holds pending
read waker 9, leads to latch set, slot emptied, and waker 9 collected. -/
theorem C5_event_fires_direction_witness :
    ∃ s2, lookupSource
        (handleEventT [(0, ⟨fun d => if d = READ then some 9 else none,
          fun _ => false, 0⟩)] [] ⟨0, true, false⟩).1 0 = some s2 ∧
      s2.triggered READ = true ∧ s2.interest READ = none ∧
      (∀ w, (⟨fun d => if d = READ then some 9 else none,
          fun _ => false, 0⟩ : Source).interest READ = some w →
        w ∈ (handleEventT [(0, ⟨fun d => if d = READ then some 9 else none,
          fun _ => false, 0⟩)] [] ⟨0, true, false⟩).2.1) :=
  C5_event_fires_direction _ [] ⟨0, true, false⟩ _ READ (by simp [lookupSource])
    (by decide)

/- ### C6: wakers are invoked only after all locks are released -/

/-- Lock-depth contribution of an action. -/
def lockDelta : Act → Int
| Act.lockTable => 1
| Act.unlockTable => -1
| Act.lockSlots _ => 1
| Act.unlockSlots _ => -1
| _ => 0

/-- Net lock depth over a trace. -/
def deltaSum (tr : List Act) : Int := (tr.map lockDelta).sum

/-- Lock depth held just before position `i` of a trace. -/
def depthBefore (tr : List Act) (i : Nat) : Int := deltaSum (tr.take i)

/-- Is this action a waker invocation? -/
def isWake : Act → Bool
| Act.wakeTask _ => true
| _ => false

theorem deltaSum_append (a b : List Act) :
    deltaSum (a ++ b) = deltaSum a + deltaSum b := by
  simp [deltaSum]

theorem fireDirT_delta (t : Nat) (s : Source) (ws : List Waker) (d : Fin 2) :
    deltaSum (fireDirT t s ws d).2.2 = 0 := by
  unfold fireDirT
  cases hs : s.interest d <;> simp [hs, deltaSum, lockDelta]

theorem fireDirT_noWake (t : Nat) (s : Source) (ws : List Waker) (d : Fin 2) :
    ∀ a ∈ (fireDirT t s ws d).2.2, isWake a = false := by
  unfold fireDirT
  cases hs : s.interest d <;> simp [hs, isWake]

theorem delta_block (t : Nat) (tr1 tr2 : List Act)
    (h1 : deltaSum tr1 = 0) (h2 : deltaSum tr2 = 0) :
    deltaSum ([Act.lockTable, Act.unlockTable, Act.lockSlots t] ++
      tr1 ++ tr2 ++ [Act.unlockSlots t]) = 0 := by
  have h1m : (List.map lockDelta tr1).sum = 0 := h1
  have h2m : (List.map lockDelta tr2).sum = 0 := h2
  simp [deltaSum_append, deltaSum, lockDelta, h1m, h2m]

theorem noWake_block (t : Nat) (tr1 tr2 : List Act)
    (h1 : ∀ a ∈ tr1, isWake a = false)
    (h2 : ∀ a ∈ tr2, isWake a = false) :
    ∀ a ∈ [Act.lockTable, Act.unlockTable, Act.lockSlots t] ++
      tr1 ++ tr2 ++ [Act.unlockSlots t], isWake a = false := by
  intro a ha
  rcases List.mem_append.1 ha with h | h
  · rcases List.mem_append.1 h with h3 | h3
    · rcases List.mem_append.1 h3 with h4 | h4
      · fin_cases h4 <;> rfl
      · exact h1 a h4
    · exact h2 a h3
  · rw [List.mem_singleton] at h
    subst h
    rfl

theorem handleEventT_delta (tbl : Table) (ws : List Waker) (ev : Event) :
    deltaSum (handleEventT tbl ws ev).2.2 = 0 := by
  unfold handleEventT
  cases hfind : lookupSource tbl ev.token with
  | none => simp [deltaSum, lockDelta]
  | some s =>
    cases hr : ev.readable <;> cases hw : ev.writable <;>
      simp only [hr, hw, Bool.false_eq_true, if_false, if_true]
    · exact delta_block ev.token [] [] rfl rfl
    · exact delta_block ev.token [] _ rfl (fireDirT_delta _ _ _ _)
    · exact delta_block ev.token _ [] (fireDirT_delta _ _ _ _) rfl
    · exact delta_block ev.token _ _ (fireDirT_delta _ _ _ _)
        (fireDirT_delta _ _ _ _)

theorem handleEventT_noWake (tbl : Table) (ws : List Waker) (ev : Event) :
    ∀ a ∈ (handleEventT tbl ws ev).2.2, isWake a = false := by
  unfold handleEventT
  cases hfind : lookupSource tbl ev.token with
  | none => simp [isWake]
  | some s =>
    cases hr : ev.readable <;> cases hw : ev.writable <;>
      simp only [hr, hw, Bool.false_eq_true, if_false, if_true]
    · exact noWake_block ev.token [] [] (by simp) (by simp)
    · exact noWake_block ev.token [] _ (by simp) (fireDirT_noWake _ _ _ _)
    · exact noWake_block ev.token _ [] (fireDirT_noWake _ _ _ _) (by simp)
    · exact noWake_block ev.token _ _ (fireDirT_noWake _ _ _ _)
        (fireDirT_noWake _ _ _ _)

theorem processEvents_delta (events : List Event) :
    ∀ (tbl : Table) (ws : List Waker),
      deltaSum (processEvents tbl ws events).2.2 = 0 := by
  induction events with
  | nil => intro tbl ws; simp [processEvents, deltaSum]
  | cons ev rest ih =>
    intro tbl ws
    simp only [processEvents, deltaSum_append]
    rw [handleEventT_delta, ih]
    simp

theorem processEvents_noWake (events : List Event) :
    ∀ (tbl : Table) (ws : List Waker),
      ∀ a ∈ (processEvents tbl ws events).2.2, isWake a = false := by
  induction events with
  | nil => intro tbl ws a ha; simp [processEvents] at ha
  | cons ev rest ih =>
    intro tbl ws a ha
    simp only [processEvents, List.mem_append] at ha
    rcases ha with h | h
    · exact handleEventT_noWake tbl ws ev a h
    · exact ih _ _ a h

theorem deltaSum_all_zero (l : List Act) (h : ∀ a ∈ l, lockDelta a = 0) :
    deltaSum l = 0 := by
  unfold deltaSum
  refine List.sum_eq_zero ?_
  intro x hx
  rcases List.mem_map.1 hx with ⟨a, ha, rfl⟩
  exact h a ha

/-- **C6.** In every `Shared::poll` event batch, wakers taken from source
slots are only invoked after the whole batch is processed: at every waker
invocation in the trace the lock depth is zero (no table lock, no slot lock
held), and every non-wake action of the trace precedes every wake. -/
theorem C6_wake_after_unlock (tbl : Table) (events : List Event) (i : Nat)
    (w : Waker) (h : (pollTrace tbl events).get? i = some (Act.wakeTask w)) :
    depthBefore (pollTrace tbl events) i = 0 ∧
    (∀ j a, (pollTrace tbl events).get? j = some a → isWake a = false →
      j < i) := by
  have hnw := processEvents_noWake events tbl []
  have hlen : (processEvents tbl [] events).2.2.length ≤ i := by
    by_contra hlt
    push_neg at hlt
    rw [pollTrace, List.get?_append hlt] at h
    have hmem := List.get?_mem h
    have := hnw _ hmem
    simp [isWake] at this
  constructor
  · rw [pollTrace, depthBefore, List.take_append_eq_append_take,
      List.take_of_length_le hlen, deltaSum_append,
      processEvents_delta events tbl []]
    have hz : deltaSum (((processEvents tbl [] events).2.1.map
        Act.wakeTask).take (i - (processEvents tbl [] events).2.2.length))
        = 0 := by
      refine deltaSum_all_zero _ ?_
      intro a ha
      have := List.take_subset _ _ ha
      rcases List.mem_map.1 this with ⟨w2, _, rfl⟩
      rfl
    rw [hz]
    ring
  · intro j a hj hnwa
    by_contra hij
    push_neg at hij
    have hjlen : (processEvents tbl [] events).2.2.length ≤ j :=
      le_trans hlen hij
    rw [pollTrace, List.get?_append_right hjlen] at hj
    have hmem := List.get?_mem hj
    rcases List.mem_map.1 hmem with ⟨w2, _, rfl⟩
    simp [isWake] at hnwa

/-- Witness for C6: the trace of a batch with one readable event for a
source with a pending read waker has its single wake at position 5, with
lock depth zero there. -/
theorem C6_wake_after_unlock_witness :
    depthBefore (pollTrace [(0, ⟨fun d => if d = READ then some 9 else none,
      fun _ => false, 0⟩)] [⟨0, true, false⟩]) 6 = 0 ∧
    (∀ j a, (pollTrace [(0, ⟨fun d => if d = READ then some 9 else none,
      fun _ => false, 0⟩)] [⟨0, true, false⟩]).get? j = some a →
      isWake a = false → j < 6) :=
  C6_wake_after_unlock _ _ 6 9 (by decide)

/- ### C7: poll error handling and the run loop -/

/-- `Shared::poll` (net.rs lines 80-127): an OS poll error of kind
Interrupted is swallowed as `Ok` with no events processed; any other error
is returned before any event is processed; otherwise the batch is processed
and the collected wakers are woken. The result carries the new table and
the wakers woken this iteration. -/
def pollOnce (tbl : Table) (osr : IoRes (List Event)) :
    IoRes (Table × List Waker) :=
  match osr with
  | IoRes.err e =>
    if e ≠ ErrKind.interrupted then IoRes.err e
    else IoRes.ok (tbl, [])
  | IoRes.ok events =>
    IoRes.ok ((processEvents tbl [] events).1,
      (processEvents tbl [] events).2.1)

/-- State threaded through iterations of `Shared::run`: the table, the
errors logged so far, and how many loop iterations have executed. -/
structure LoopState : Type where
  tbl : Table
  logged : List ErrKind
  iters : Nat

/-- One iteration of the `Shared::run` loop body (net.rs lines 71-77): call
`poll`; if it returns an error, log it and continue; either way the loop
proceeds to its next iteration. -/
def runStep (st : LoopState) (osr : IoRes (List Event)) : LoopState :=
  match pollOnce st.tbl osr with
  | IoRes.err e =>
    { tbl := st.tbl, logged := st.logged ++ [e], iters := st.iters + 1 }
  | IoRes.ok (tbl2, _) =>
    { tbl := tbl2, logged := st.logged, iters := st.iters + 1 }

/-- `Shared::run` driven by a finite schedule of OS poll outcomes. -/
def runLoop (st : LoopState) (inputs : List (IoRes (List Event))) :
    LoopState :=
  inputs.foldl runStep st

theorem runStep_iters (st : LoopState) (osr : IoRes (List Event)) :
    (runStep st osr).iters = st.iters + 1 := by
  unfold runStep
  cases h : pollOnce st.tbl osr with
  | err e => rfl
  | ok p => obtain ⟨tbl2, ws⟩ := p; rfl

/-- **C7.** Poll error handling: an interrupted OS poll is swallowed as a
harmless empty result (table unchanged, no wakers, no error); any other
poll error is surfaced by `poll` and then logged by `run`, which continues;
the loop executes every scheduled iteration, never terminating because of a
poll error. -/
theorem C7_poll_error_handling (tbl : Table) (st : LoopState) (e : ErrKind)
    (inputs : List (IoRes (List Event))) :
    (pollOnce tbl (IoRes.err ErrKind.interrupted) = IoRes.ok (tbl, [])) ∧
    (e ≠ ErrKind.interrupted → pollOnce tbl (IoRes.err e) = IoRes.err e) ∧
    (e ≠ ErrKind.interrupted → runStep st (IoRes.err e) =
      { tbl := st.tbl, logged := st.logged ++ [e], iters := st.iters + 1 }) ∧
    (runLoop st inputs).iters = st.iters + inputs.length := by
  refine ⟨by simp [pollOnce], ?_, ?_, ?_⟩
  · intro he
    simp [pollOnce, he]
  · intro he
    unfold runStep
    simp [pollOnce, he]
  · induction inputs generalizing st with
    | nil => simp [runLoop]
    | cons osr rest ih =>
      show (runLoop (runStep st osr) rest).iters = _
      rw [ih (runStep st osr), runStep_iters]
      simp [List.length_cons]
      omega

/-- Witness for C7: a poll error of kind `other 3` is not interrupted, so
`poll` surfaces it. -/
theorem C7_poll_error_handling_witness :
    pollOnce [] (IoRes.err (ErrKind.other 3)) = IoRes.err (ErrKind.other 3) :=
  (C7_poll_error_handling [] ⟨[], [], 0⟩ (ErrKind.other 3) []).2.1 (by decide)

/- ### C2: registration -/

/-- Reactor-side registration state: the source table, the next fresh
token, and the OS-poller registrations (socket, read interest, write
interest). -/
structure RegState : Type where
  sources : Table
  nextToken : Nat
  pollerRegs : List (Nat × Bool × Bool)

/-- Modelled from the spec: the body of `Reactor::register` in
src/http/net.rs is incomplete in the repository — the construction of the
`source` it returns, the `Shared` source-table insertion and the OS-poller
registration are absent (the function references an undefined `source`
binding, and the `Shared` struct whose `sources` and `registry` fields the
rest of the file uses is declared nowhere under src/). Following §4.2 of
the spec: allocate a fresh Identifier, build an empty Source (both waker
slots empty, both latches false), insert it into the table under lock,
register the raw socket with the OS poller for both directions' interest,
and return the identifier/Source pair. -/
def register_spec (st : RegState) (sock : Nat) :
    RegState × Nat × Source :=
  let tok := st.nextToken
  let src : Source :=
    { interest := fun _ => none, triggered := fun _ => false, token := tok }
  ({ sources := (tok, src) :: st.sources,
     nextToken := tok + 1,
     pollerRegs := st.pollerRegs ++ [(sock, true, true)] },
   tok, src)

theorem lookup_none_of_keys_lt (tbl : Table) (tok : Nat)
    (h : ∀ p ∈ tbl, p.1 < tok) : lookupSource tbl tok = none := by
  induction tbl with
  | nil => rfl
  | cons p rest ih =>
    obtain ⟨t, s⟩ := p
    have ht : t < tok := h (t, s) (List.mem_cons_self _ _)
    have : t ≠ tok := Nat.ne_of_lt ht
    simp only [lookupSource, this, if_false]
    exact ih fun q hq => h q (List.mem_cons_of_mem _ hq)

/-- **C2.** `register(raw_socket)` allocates a fresh Identifier (one not
present in the table), builds a Source with both waker slots empty and both
latches false, inserts it into the table, registers the raw socket with the
OS poller for both read and write interest, and returns the
identifier/Source pair. -/
theorem C2_register (st : RegState) (sock : Nat)
    (hfresh : ∀ p ∈ st.sources, p.1 < st.nextToken) :
    lookupSource st.sources (register_spec st sock).2.1 = none ∧
    (register_spec st sock).2.2.interest READ = none ∧
    (register_spec st sock).2.2.interest WRITE = none ∧
    (register_spec st sock).2.2.triggered READ = false ∧
    (register_spec st sock).2.2.triggered WRITE = false ∧
    lookupSource (register_spec st sock).1.sources
      (register_spec st sock).2.1 = some (register_spec st sock).2.2 ∧
    (sock, true, true) ∈ (register_spec st sock).1.pollerRegs ∧
    (register_spec st sock).2.2.token = (register_spec st sock).2.1 := by
  refine ⟨lookup_none_of_keys_lt st.sources st.nextToken hfresh,
    rfl, rfl, rfl, rfl, ?_, ?_, rfl⟩
  · simp [register_spec, lookupSource]
  · simp [register_spec]

/-- Witness for C2 on the empty reactor state: registering socket 4 inserts
the new source under the fresh token. -/
theorem C2_register_witness :
    lookupSource (register_spec ⟨[], 0, []⟩ 4).1.sources
      (register_spec ⟨[], 0, []⟩ 4).2.1 =
      some (register_spec ⟨[], 0, []⟩ 4).2.2 :=
  (C2_register ⟨[], 0, []⟩ 4 (by simp)).2.2.2.2.2.1

/- ### C3: wrapper teardown -/

/-- Observable actions of `Drop for TcpStream`. -/
inductive TAct : Type
| lockTable
| removeSrc (t : Nat)
| deregSock (s : Nat)
| unlockTable
deriving DecidableEq, Repr

/-- The wrapper: exclusive raw socket plus the token of its Source. -/
structure StreamHandle : Type where
  sys : Nat
  token : Nat

/-- Reactor shared state touched by teardown: the source table and the set
of sockets currently registered with the OS poller. -/
structure SharedState : Type where
  sources : Table
  registry : List Nat

/-- `sources.remove(&token)` on the association-list model. -/
def removeFromTable (tbl : Table) (tok : Nat) : Table :=
  tbl.filter fun p => p.1 ≠ tok

/-- `impl Drop for TcpStream` (net.rs lines 203-209): lock the table,
remove the Source under the lock, then deregister the raw socket from the
OS poller (still under the lock, in that order), and unlock. -/
def dropStream (sh : SharedState) (h : StreamHandle) :
    SharedState × List TAct :=
  ({ sources := removeFromTable sh.sources h.token,
     registry := sh.registry.filter fun x => x ≠ h.sys },
   [TAct.lockTable, TAct.removeSrc h.token, TAct.deregSock h.sys,
    TAct.unlockTable])

/-- The teardown order asserted by the claim: OS-poller deregistration
happens strictly before table removal. -/
def deregThenRemove (tr : List TAct) (tok sys : Nat) : Prop :=
  ∃ i j : Fin tr.length, (i : Nat) < (j : Nat) ∧
    tr.get i = TAct.deregSock sys ∧ tr.get j = TAct.removeSrc tok

/-- **C3 counterexample.** On a concrete drop, the trace does *not*
deregister before removing: the code removes the Source from the table
first and deregisters afterwards, so the claimed order is false. -/
theorem C3_counterexample_order :
    ¬ deregThenRemove (dropStream ⟨[], [5]⟩ ⟨5, 0⟩).2 0 5 := by
  unfold deregThenRemove
  decide

def isRemoveA : TAct → Bool
| TAct.removeSrc _ => true
| _ => false

def isDeregA : TAct → Bool
| TAct.deregSock _ => true
| _ => false

/-- **C3 (amended).** Every drop of the wrapper runs exactly one teardown
sequence: under the table lock, removal of its Source from the table
followed by OS-poller deregistration of the raw socket, in that order;
afterwards the token is gone from the table and the socket is gone from
the poller registry. -/
theorem C3_teardown_remove_then_dereg (sh : SharedState) (h : StreamHandle) :
    (dropStream sh h).2.filter isRemoveA = [TAct.removeSrc h.token] ∧
    (dropStream sh h).2.filter isDeregA = [TAct.deregSock h.sys] ∧
    (∃ i j : Fin (dropStream sh h).2.length, (i : Nat) < (j : Nat) ∧
      (dropStream sh h).2.get i = TAct.removeSrc h.token ∧
      (dropStream sh h).2.get j = TAct.deregSock h.sys) ∧
    (dropStream sh h).2.head? = some TAct.lockTable ∧
    (dropStream sh h).2.getLast? = some TAct.unlockTable ∧
    lookupSource (dropStream sh h).1.sources h.token = none ∧
    h.sys ∉ (dropStream sh h).1.registry := by
  refine ⟨?_, ?_, ⟨⟨1, by simp [dropStream]⟩, ⟨2, by simp [dropStream]⟩,
    by simp, rfl, rfl⟩, rfl, rfl, ?_, ?_⟩
  · simp [dropStream, isRemoveA]
  · simp [dropStream, isDeregA]
  · show lookupSource (removeFromTable sh.sources h.token) h.token = none
    induction sh.sources with
    | nil => rfl
    | cons p rest ih =>
      obtain ⟨t, s⟩ := p
      by_cases ht : t = h.token
      · simpa [removeFromTable, ht] using ih
      · simpa [removeFromTable, lookupSource, ht] using ih
  · simp [dropStream]

end NetR
